import Mathlib

/-!
Verification development for the LMS ETL pipeline (stage two:
`s3_to_rds_lambda.py`).  The data model embeds a pandas DataFrame cell as
an inductive `Value`, a DataFrame as an ordered list of named columns, and
the destination table as a list of rows (association lists from column
name to value).  The functions `convert_dataframe_dtypes`,
`parse_datetime_columns` and `upsert_dataframe_to_postgres` are shallow
embeddings of the Python functions of the same names; the semantics of the
external pandas / PostgreSQL calls they make are embedded at the level of
the values they produce, as documented on each definition.
-/

/-- A pandas DataFrame cell.  `vFloat s` is a finite Python float carried by
its `str()` rendering (all floats relevant here are decimal literals);
`vNaN` is the float NaN (pandas' missing marker for CSV data); `vNone` is
Python `None` (what pandas hands to the driver as SQL NULL); `vNaT` is
pandas' missing-datetime marker; `vDatetime` is a timestamp with a flag
recording whether it is tagged UTC. -/
inductive Value where
  | vNaN : Value
  | vFloat : String → Value
  | vInt : Int → Value
  | vStr : String → Value
  | vBool : Bool → Value
  | vNone : Value
  | vNaT : Value
  | vDatetime : Nat → Nat → Nat → Nat → Nat → Nat → Bool → Value
deriving DecidableEq, Repr

/-- Character-list prefix test (structural, kernel-computable). -/
def isPrefixList : List Char → List Char → Bool
  | [], _ => true
  | _ :: _, [] => false
  | c :: cs, d :: ds => c == d && isPrefixList cs ds

/-- Substring test over character lists. -/
def containsSub (pat : List Char) : List Char → Bool
  | [] => pat.isEmpty
  | c :: cs => isPrefixList pat (c :: cs) || containsSub pat cs

/-- Substring test, modelling Python's `in` on strings
(`'INTEGER' in str(dtype)`). -/
def strHas (s pat : String) : Bool :=
  containsSub pat.toList s.toList

/-- Python `str.replace` on character lists: every non-overlapping
occurrence of `pat` (nonempty here) is replaced, scanning left to right.
The fuel argument (instantiated with the list length) keeps the
recursion structural. -/
def replaceFuel (pat repl : List Char) : Nat → List Char → List Char
  | 0, s => s
  | _, [] => []
  | fuel + 1, c :: cs =>
    if isPrefixList pat (c :: cs) then
      repl ++ replaceFuel pat repl fuel (List.drop (pat.length - 1) cs)
    else c :: replaceFuel pat repl fuel cs

/-- Python `str.replace(s, pat, repl)` for a nonempty pattern. -/
def pyReplace (s pat repl : String) : String :=
  if pat.toList.isEmpty then s
  else String.mk (replaceFuel pat.toList repl.toList s.toList.length s.toList)

/-- Split a character list at a separator character (the separators used
by the parsers here are all single characters). -/
def splitOnChar (sep : Char) : List Char → List (List Char)
  | [] => [[]]
  | c :: cs =>
    match splitOnChar sep cs with
    | [] => [[c]]
    | g :: gs => if c == sep then [] :: g :: gs else (c :: g) :: gs

/-- Zero-padded two-digit rendering, for datetime display. -/
def pad2 (n : Nat) : String :=
  if n < 10 then "0" ++ toString n else toString n

/-- Digit-list to number (most significant first). -/
def digitsVal (l : List Char) : Nat :=
  l.foldl (fun n c => 10 * n + (c.toNat - 48)) 0

/-- All characters are decimal digits. -/
def isDigits (l : List Char) : Bool :=
  l.all (fun c => c.isDigit)

/-- An exact decimal number `num / 10 ^ exp`, deliberately unnormalized
so that every operation on it is kernel-computable. -/
structure DecNum where
  num : Int
  exp : Nat
deriving DecidableEq, Repr

/-- `10 ^ n` by structural recursion. -/
def pow10 : Nat → Nat
  | 0 => 1
  | n + 1 => 10 * pow10 n

/-- The decimal is an exact integer (its denominator divides out). -/
def DecNum.isIntegral (q : DecNum) : Bool :=
  q.num % ((pow10 q.exp : Nat) : Int) == 0

/-- The integer value of an integral decimal. -/
def DecNum.toInt (q : DecNum) : Int :=
  q.num / ((pow10 q.exp : Nat) : Int)

/-- Parse an unsigned decimal literal (`"42"`, `"42.5"`, `".5"`, `"5."`)
as an exact decimal, modelling Python float parsing of the decimal
literals that occur in this pipeline (scientific notation and infinities
are outside the modelled domain). -/
def parseUnsignedList (u : List Char) : Option DecNum :=
  match splitOnChar '.' u with
  | [a] =>
      if 0 < a.length && isDigits a then some ⟨(digitsVal a : Int), 0⟩
      else none
  | [a, b] =>
      if 0 < a.length + b.length && isDigits a && isDigits b then
        some ⟨(digitsVal a * pow10 b.length + digitsVal b : Nat), b.length⟩
      else none
  | _ => none

/-- Parse a signed decimal literal as an exact decimal (`None` = parse
failure, which `pd.to_numeric(errors='coerce')` turns into NaN). -/
def parseNumeric (s : String) : Option DecNum :=
  match s.toList with
  | '-' :: rest => (parseUnsignedList rest).map (fun q => DecNum.mk (-q.num) q.exp)
  | '+' :: rest => parseUnsignedList rest
  | l => parseUnsignedList l

/-- Python `str()` of a cell value. -/
def pyStr : Value → String
  | .vNaN => "nan"
  | .vFloat s => s
  | .vInt n => toString n
  | .vStr s => s
  | .vBool b => if b then "True" else "False"
  | .vNone => "None"
  | .vNaT => "NaT"
  | .vDatetime y mo d h mi s u =>
      toString y ++ "-" ++ pad2 mo ++ "-" ++ pad2 d ++ " " ++
        pad2 h ++ ":" ++ pad2 mi ++ ":" ++ pad2 s ++ (if u then "+00:00" else "")

/-- The pre-pass applied to every cell of every column
(`str(x).replace('.0', '') if isinstance(x, float) else x`, line 43).
Only float instances are touched — NaN is a float (`str(nan) = "nan"`,
unchanged by the replacement) — and `str.replace` removes every
occurrence of `".0"`, not only a trailing suffix.  `String.replace`
matches Python `str.replace`: all non-overlapping occurrences,
left to right. -/
def prePassCell : Value → Value
  | .vNaN => .vStr "nan"
  | .vFloat s => .vStr (pyReplace s ".0" "")
  | v => v

/-- `pd.to_numeric(·, errors='coerce')` on one cell: `none` is NaN
(either a literal NaN/None input, or a coerced parse failure).
Datetime cells do not occur before coercion and are modelled as NaN. -/
def toNumeric : Value → Option DecNum
  | .vNaN => none
  | .vNone => none
  | .vNaT => none
  | .vFloat s => parseNumeric s
  | .vStr s => parseNumeric s
  | .vInt n => some ⟨n, 0⟩
  | .vBool b => some ⟨if b then 1 else 0, 0⟩
  | .vDatetime _ _ _ _ _ _ _ => none

/-- The INTEGER/BIGINT branch (lines 49-51):
`pd.to_numeric(errors='coerce').astype('Int64')` then
`.replace({np.nan: None})`.  `astype('Int64')` raises on a non-integral
numeric value ("cannot safely cast"); NaN becomes the nullable-integer
missing value, which the final replace turns into `None`. -/
def intCoerceCol (col : List Value) : Except String (List Value) :=
  let nums := col.map toNumeric
  if nums.all (fun q => match q with | none => true | some q => q.isIntegral) then
    .ok (nums.map (fun q => match q with
      | none => Value.vNone
      | some q => Value.vInt q.toInt))
  else .error "cannot safely cast non-equivalent float64 to int64"

/-- The VARCHAR/TEXT branch on one cell (lines 54-55): `astype(str)` then
`replace({'nan': ' '})` (the replace matches cells exactly equal to the
string `"nan"`). -/
def textCoerceCell (v : Value) : Value :=
  let s := pyStr v
  .vStr (if s = "nan" then " " else s)

/-- Python truthiness, as applied by `astype(bool)` (line 57): NaN and
NaT are truthy, zero numbers and the empty string and `None` are falsy. -/
def pyTruthy : Value → Bool
  | .vNaN => true
  | .vNaT => true
  | .vNone => false
  | .vFloat s =>
      match parseNumeric s with
      | some q => !(q.num == 0)
      | none => true
  | .vStr s => !(s == "")
  | .vInt n => !(n == 0)
  | .vBool b => b
  | .vDatetime _ _ _ _ _ _ _ => true

/-- Number of days in a (Gregorian) month, used to validate parsed dates. -/
def daysInMonth (y mo : Nat) : Nat :=
  if mo = 2 then
    if y % 4 = 0 && (y % 100 != 0 || y % 400 = 0) then 29 else 28
  else if mo = 4 || mo = 6 || mo = 9 || mo = 11 then 30
  else 31

/-- Parse a field of at most `maxLen` digits (strptime numeric fields
accept fewer digits than the padded width). -/
def parseField (s : List Char) (maxLen : Nat) : Option Nat :=
  if 0 < s.length && s.length ≤ maxLen && isDigits s then
    some (digitsVal s)
  else none

/-- Best-effort generic datetime parse for the DATE/TIMESTAMP coercion
branch, modelling `pd.to_datetime` without an explicit format on the ISO
layouts `YYYY-MM-DD` and `YYYY-MM-DD HH:MM:SS` (the only layouts this
pipeline can feed it); anything else fails (→ NaT under coerce). -/
def parseISO (s : String) : Option (Nat × Nat × Nat × Nat × Nat × Nat) :=
  let date := fun (ds : List Char) => do
    match splitOnChar '-' ds with
    | [ys, ms, dds] => do
        let y ← parseField ys 4
        let mo ← parseField ms 2
        let d ← parseField dds 2
        if 1 ≤ mo && mo ≤ 12 && 1 ≤ d && d ≤ daysInMonth y mo then some (y, mo, d)
        else none
    | _ => none
  match splitOnChar ' ' s.toList with
  | [ds] => do
      let (y, mo, d) ← date ds
      some (y, mo, d, 0, 0, 0)
  | [ds, ts] => do
      let (y, mo, d) ← date ds
      match splitOnChar ':' ts with
      | [hs, mis, ss] => do
          let h ← parseField hs 2
          let mi ← parseField mis 2
          let sec ← parseField ss 2
          if h ≤ 23 && mi ≤ 59 && sec ≤ 59 then some (y, mo, d, h, mi, sec)
          else none
      | _ => none
  | _ => none

/-- The DATE/TIMESTAMP branch (line 59):
`pd.to_datetime(errors='coerce').dt.tz_localize('UTC')` — parse
best-effort, failures become NaT, naive results are tagged UTC. -/
def dtCoerceCol (col : List Value) : Except String (List Value) :=
  .ok (col.map (fun v =>
    match v with
    | .vStr s =>
        match parseISO s with
        | some (y, mo, d, h, mi, sec) => .vDatetime y mo d h mi sec true
        | none => .vNaT
    | .vDatetime y mo d h mi sec _ => .vDatetime y mo d h mi sec true
    | _ => .vNaT))

/-- `pd.isna` on one cell. -/
def pdIsNa : Value → Bool
  | .vNaN => true
  | .vNone => true
  | .vNaT => true
  | _ => false

/-- JSON string escaping for `json.dumps` of a string value. -/
def jsonEscape (s : String) : String :=
  s.toList.foldl (fun acc c =>
    acc ++ (if c = '"' then "\\\"" else if c = '\\' then "\\\\" else String.singleton c)) ""

/-- The JSON branch on one cell (line 61):
`json.dumps(x) if not pd.isna(x) else None`; `json.dumps` raises on a
non-serializable object such as a timestamp. -/
def jsonCell (v : Value) : Except String Value :=
  if pdIsNa v then .ok .vNone
  else match v with
    | .vStr s => .ok (.vStr ("\"" ++ jsonEscape s ++ "\""))
    | .vInt n => .ok (.vStr (toString n))
    | .vFloat s => .ok (.vStr s)
    | .vBool b => .ok (.vStr (if b then "true" else "false"))
    | _ => .error "Object is not JSON serializable"

/-- The JSON branch on a column. -/
def jsonCoerceCol (col : List Value) : Except String (List Value) :=
  col.mapM jsonCell

/-- The per-column type dispatch of `convert_dataframe_dtypes`
(lines 48-61): substring tests on the stringified declared type, in the
source's branch order; unmatched types leave the column unchanged. -/
def convertCol (dtype : String) (col : List Value) : Except String (List Value) :=
  if strHas dtype "INTEGER" || strHas dtype "BIGINT" then intCoerceCol col
  else if strHas dtype "VARCHAR" || strHas dtype "TEXT" then .ok (col.map textCoerceCell)
  else if strHas dtype "BOOLEAN" then .ok (col.map (fun v => Value.vBool (pyTruthy v)))
  else if strHas dtype "DATE" || strHas dtype "TIMESTAMP" then dtCoerceCol col
  else if strHas dtype "JSON" then jsonCoerceCol col
  else .ok col

/-- A DataFrame: ordered named columns of equal length. -/
abbrev Df : Type := List (String × List Value)

/-- Replace the contents of column `c` (in-place column assignment). -/
def dfSet (df : Df) (c : String) (col : List Value) : Df :=
  df.map (fun p => if p.1 = c then (c, col) else p)

/-- The pre-pass loop over `df.columns` (lines 41-43). -/
def prePassDf (df : Df) : Df :=
  df.map (fun p => (p.1, p.2.map prePassCell))

/-- The schema loop of `convert_dataframe_dtypes` (lines 45-65): columns
are converted one at a time, in place; a failing conversion raises
`Exception(f"Failed to convert column '{column}' to {dtype}: ...")`,
leaving the columns already processed in their converted state (the
returned `Df` is the in-memory state of the mutated DataFrame when the
exception propagates). -/
def convertLoop : Df → List (String × String) → Df × Option String
  | df, [] => (df, none)
  | df, (c, ty) :: rest =>
    match (List.lookup c df : Option (List Value)) with
    | some col =>
        match convertCol ty col with
        | .ok col2 => convertLoop (dfSet df c col2) rest
        | .error e =>
            (df, some ("Failed to convert column '" ++ c ++ "' to " ++ ty ++ ": " ++ e))
    | none => convertLoop df rest

/-- `convert_dataframe_dtypes(df, schema_info)` (lines 38-65): the
pre-pass over every column, then the schema-driven loop.  The first
component is the DataFrame state when the function returns or raises;
the second is the raised error message, if any. -/
def convert_dataframe_dtypes (df : Df) (schema_info : List (String × String)) :
    Df × Option String :=
  convertLoop (prePassDf df) schema_info

/-- Strict parse against the fixed strptime format `%m-%d-%Y %H:%M:%S`
(line 120).  Each numeric field accepts up to its padded width in digits
(strptime accepts unpadded fields); the day of month is validated against
the month and (Gregorian leap) year; the whole string must match
(`pd.to_datetime` with an explicit format is exact).  Result:
(month, day, year, hour, minute, second). -/
def strptimeMdyHms (s : String) : Option (Nat × Nat × Nat × Nat × Nat × Nat) :=
  match splitOnChar ' ' s.toList with
  | [ds, ts] =>
      match splitOnChar '-' ds, splitOnChar ':' ts with
      | [ms, dds, ys], [hs, mis, ss] => do
          let mo ← parseField ms 2
          let d ← parseField dds 2
          let y ← parseField ys 4
          let h ← parseField hs 2
          let mi ← parseField mis 2
          let sec ← parseField ss 2
          if 1 ≤ mo && mo ≤ 12 && 1 ≤ d && d ≤ daysInMonth y mo &&
             h ≤ 23 && mi ≤ 59 && sec ≤ 59 then
            some (mo, d, y, h, mi, sec)
          else none
      | _, _ => none
  | _ => none

/-- One cell under `pd.to_datetime(·, format='%m-%d-%Y %H:%M:%S',
errors='coerce')` (line 120): strings are parsed strictly (failures
coerce to NaT, producing a naive timestamp), datetimes pass through,
every other value coerces to NaT. -/
def parseDtCell : Value → Value
  | .vStr s =>
      match strptimeMdyHms s with
      | some (mo, d, y, h, mi, sec) => .vDatetime y mo d h mi sec false
      | none => .vNaT
  | .vDatetime y mo d h mi sec u => .vDatetime y mo d h mi sec u
  | _ => .vNaT

/-- Lines 121-124: a naive column is `tz_localize('UTC')`-ed, an aware
one is `tz_convert('UTC')`-ed; either way every timestamp ends up
UTC-tagged at the same clock reading for the naive case. -/
def localizeUTCCell : Value → Value
  | .vDatetime y mo d h mi sec _ => .vDatetime y mo d h mi sec true
  | v => v

/-- Line 126: `replace({pd.NaT: None})`. -/
def natToNoneCell : Value → Value
  | .vNaT => .vNone
  | v => v

/-- The per-column body of `parse_datetime_columns` (lines 120-126):
strict parse, UTC normalization, NaT→None. -/
def parse_datetime_column (col : List Value) : List Value :=
  ((col.map parseDtCell).map localizeUTCCell).map natToNoneCell

/-- `parse_datetime_columns(df, column_names)` (lines 116-130): each
listed column is normalized in place; a missing column raises
(`df[column_name]` KeyError, re-raised with the column name), leaving
the columns already processed normalized. -/
def parse_datetime_columns : Df → List String → Df × Option String
  | df, [] => (df, none)
  | df, c :: rest =>
    match (List.lookup c df : Option (List Value)) with
    | some col => parse_datetime_columns (dfSet df c (parse_datetime_column col)) rest
    | none => (df, some ("Failed to parse datetime column '" ++ c ++ "': KeyError"))

/-- A destination-table row: an association list from column name to
value (first occurrence wins on lookup, as in a table every column name
is unique). -/
abbrev Row : Type := List (String × Value)

/-- The destination table: a list of rows. -/
abbrev Table : Type := List Row

/-- Column access in a row. -/
def getCol (r : Row) (c : String) : Option Value :=
  List.lookup c r

/-- PostgreSQL conflict test for `ON CONFLICT ("uniqueKey")` (line 77):
the incoming record `r` conflicts with an existing row exactly when both
carry the same non-NULL value in the unique-key column (NULLs never
conflict under a unique index). -/
def conflicts (k : String) (r row : Row) : Bool :=
  match getCol r k, getCol row k with
  | some v, some w => decide (v = w ∧ v ≠ Value.vNone)
  | _, _ => false

/-- The `DO UPDATE SET "col" = EXCLUDED."col"` clause (line 78): every
column of the existing row other than the unique key that the record
carries is overwritten with the record's value; the key column and
columns the record does not carry keep their old values. -/
def mergeRow (k : String) (row r : Row) : Row :=
  row.map (fun p => if p.1 = k then p else (p.1, ((getCol r p.1).getD p.2)))

/-- One execution of the upsert statement for one record, against the
documented PostgreSQL `INSERT ... ON CONFLICT DO UPDATE` semantics: if
some row conflicts on the unique key, every conflicting row (exactly one
under the unique-index precondition) is updated in place via `mergeRow`;
otherwise the record is inserted at the end.  `ok` models the
destination table's row constraints: the database rejects the statement
(raising, inside the transaction) when a written row violates them. -/
def upsertRow (k : String) (ok : Row → Bool) (t : Table) (r : Row) :
    Except String Table :=
  if t.any (fun row => conflicts k r row) then
    if ((t.filter (fun row => conflicts k r row)).map (fun row => mergeRow k row r)).all ok then
      .ok (t.map (fun row => if conflicts k r row then mergeRow k row r else row))
    else .error "new row violates a destination constraint"
  else
    if ok r then .ok (t ++ [r]) else .error "new row violates a destination constraint"

/-- `connection.execute(upsert_stmt, df.to_dict(orient='records'))`
(line 81) is an executemany: the records are applied one at a time, in
order, inside the open transaction.  The result is the table state as of
the failure (the failing statement itself has no effect) together with
the error, if any. -/
def runBatchNoTx (k : String) (ok : Row → Bool) : Table → List Row → Table × Option String
  | t, [] => (t, none)
  | t, r :: rs =>
    match upsertRow k ok t r with
    | .ok t1 => runBatchNoTx k ok t1 rs
    | .error e => (t, some e)

/-- Outcome of one call of the upsert engine: the destination-table
state after the call, the raised error (if any), and the Python return
value of the function on success. -/
structure UpsertOutcome where
  table : Table
  error : Option String
  returned : Option Nat
deriving DecidableEq, Repr

/-- `upsert_dataframe_to_postgres` (lines 69-85): the batch runs inside
`with connection.begin()`, whose context manager commits on success and
rolls the whole transaction back when the execute raises, after which
the function re-raises `Exception(f"An error occurred during upsert:
...")`.  The function body has no `return` statement, so on success the
Python return value is `None`. -/
def upsert_dataframe_to_postgres (k : String) (ok : Row → Bool) (t : Table)
    (batch : List Row) : UpsertOutcome :=
  match runBatchNoTx k ok t batch with
  | (t1, none) => ⟨t1, none, none⟩
  | (_, some e) => ⟨t, some ("An error occurred during upsert: " ++ e), none⟩

/-- The error wrapper text of the upsert engine (line 85). -/
def upsertErrorText (e : String) : String :=
  "An error occurred during upsert: " ++ e

/-- The error text of a failed column conversion (line 65). -/
def coercionErrorText (c ty cause : String) : String :=
  "Failed to convert column '" ++ c ++ "' to " ++ ty ++ ": " ++ cause

/-- `MergeEvolved k cols x y`: the row `y` is a (possibly empty) chain of
`ON CONFLICT` merges applied to `x`, each with a record carrying exactly
the batch's column list `cols` — the shape every destination row keeps
throughout a run, since all records of one DataFrame batch share
`df.columns`. -/
inductive MergeEvolved (k : String) (cols : List String) : Row → Row → Prop where
  | refl (x : Row) : MergeEvolved k cols x x
  | step (x y r : Row) : MergeEvolved k cols x y → r.map Prod.fst = cols →
      MergeEvolved k cols x (mergeRow k y r)

theorem getElem?_map_pipe {α β : Type} (f : α → β) (l : List α) (i : Nat) :
    (l.map f)[i]? = (l[i]?).map f :=
  List.getElem?_map f l i

/-- C6 counterexample: the pre-pass does not strip only a trailing
`".0"` — `str.replace('.0', '')` removes every occurrence, so the float
1.023, which has no trailing `".0"`, is rewritten to `"123"`; and a
string-typed cell `"42.0"` bound for a text column is not a float, so
the pre-pass leaves it `"42.0"`, not `"42"`. -/
theorem c6_prepass_counterexample :
    prePassCell (Value.vFloat "1.023") = Value.vStr "123" ∧
    Value.vStr "123" ≠ Value.vStr "1.023" ∧
    convertCol "TEXT" (List.map prePassCell [Value.vStr "42.0"]) = .ok [Value.vStr "42.0"] ∧
    Value.vStr "42.0" ≠ Value.vStr "42" :=
  ⟨by decide, by decide, rfl, by decide⟩

/-- C6 (amended): the pre-pass touches exactly the float-typed cells,
replacing every occurrence of the substring `".0"` in the float's
textual rendering (so a float 42.0 destined for a text column becomes
`"42"` and destined for an integer column becomes the integer 42), and
leaves string, boolean and integer cells unchanged. -/
theorem c6_prepass_amended :
    (∀ s, prePassCell (Value.vStr s) = Value.vStr s) ∧
    (∀ b, prePassCell (Value.vBool b) = Value.vBool b) ∧
    (∀ n, prePassCell (Value.vInt n) = Value.vInt n) ∧
    (∀ s, prePassCell (Value.vFloat s) = Value.vStr (pyReplace s ".0" "")) ∧
    prePassCell (Value.vFloat "42.0") = Value.vStr "42" ∧
    convertCol "INTEGER" (List.map prePassCell [Value.vFloat "42.0"]) = .ok [Value.vInt 42] ∧
    convertCol "TEXT" (List.map prePassCell [Value.vFloat "42.0"]) = .ok [Value.vStr "42"] :=
  ⟨fun _ => rfl, fun _ => rfl, fun _ => rfl, fun _ => rfl, by decide, rfl, rfl⟩

/-- C9 counterexample: a successful call of the upsert engine on a
one-record batch returns `None`, not the record count 1 — the function
body has no `return` statement. -/
theorem c9_returns_none_counterexample :
    upsert_dataframe_to_postgres "id" (fun _ => true) [] [[("id", Value.vInt 1)]]
      = ⟨[[("id", Value.vInt 1)]], none, none⟩ ∧
    (upsert_dataframe_to_postgres "id" (fun _ => true) [] [[("id", Value.vInt 1)]]).returned
      ≠ some 1 :=
  ⟨rfl, by decide⟩

/-- C9 (amended): the upsert engine returns no value at all — on every
call, successful or not, the Python return value is `None`; the number
of records written is not reported. -/
theorem c9_upsert_returns_nothing (k : String) (ok : Row → Bool) (t : Table)
    (batch : List Row) :
    (upsert_dataframe_to_postgres k ok t batch).returned = none := by
  unfold upsert_dataframe_to_postgres
  split <;> rfl

theorem convertLoop_error_shape (schema : List (String × String)) :
    ∀ df df2 m, convertLoop df schema = (df2, some m) →
      ∃ c ty cause, (c, ty) ∈ schema ∧ m = coercionErrorText c ty cause := by
  induction schema with
  | nil =>
      intro df df2 m h
      simp [convertLoop] at h
  | cons p rest ih =>
      intro df df2 m h
      obtain ⟨c, ty⟩ := p
      rw [convertLoop] at h
      cases hl : List.lookup c df with
      | none =>
          rw [hl] at h
          obtain ⟨c2, ty2, cause, hmem, hm⟩ := ih _ _ _ h
          exact ⟨c2, ty2, cause, List.mem_cons_of_mem _ hmem, hm⟩
      | some col =>
          rw [hl] at h
          dsimp only at h
          cases hc : convertCol ty col with
          | ok col2 =>
              rw [hc] at h
              obtain ⟨c2, ty2, cause, hmem, hm⟩ := ih _ _ _ h
              exact ⟨c2, ty2, cause, List.mem_cons_of_mem _ hmem, hm⟩
          | error e =>
              rw [hc] at h
              refine ⟨c, ty, e, List.mem_cons_self _ _, ?_⟩
              have := congrArg Prod.snd h
              simpa [coercionErrorText] using this.symm

/-- C4 (amended): when any column's conversion fails, the whole coercion
pass aborts with an error that names the failing column and its declared
type; the columns processed before the failure keep their coerced values
(the in-memory batch IS partially coerced on failure; it is only never
written, because the driver abandons it). -/
theorem c4_coercion_error_names_column (df : Df) (schema : List (String × String))
    (df2 : Df) (m : String)
    (h : convert_dataframe_dtypes df schema = (df2, some m)) :
    ∃ c ty cause, (c, ty) ∈ schema ∧ m = coercionErrorText c ty cause :=
  convertLoop_error_shape schema (prePassDf df) df2 m h

/-- C4 witness: the two-integer-column batch whose second column holds a
non-integral value makes the pass fail with an error naming column b and
type INTEGER. -/
theorem c4_coercion_error_witness :
    ∃ c ty cause,
      (c, ty) ∈ [("a", "INTEGER"), ("b", "INTEGER")] ∧
      "Failed to convert column 'b' to INTEGER: cannot safely cast non-equivalent float64 to int64"
        = coercionErrorText c ty cause :=
  c4_coercion_error_names_column
    [("a", [Value.vStr "7"]), ("b", [Value.vStr "1.5"])]
    [("a", "INTEGER"), ("b", "INTEGER")]
    [("a", [Value.vInt 7]), ("b", [Value.vStr "1.5"])] _ rfl

/-- C4 counterexample: on that same failing call, the returned in-memory
batch state has column a already coerced (`"7"` became the integer 7):
the claim that no column of the batch has been modified on failure is
false. -/
theorem c4_partial_coercion_counterexample :
    convert_dataframe_dtypes [("a", [Value.vStr "7"]), ("b", [Value.vStr "1.5"])]
        [("a", "INTEGER"), ("b", "INTEGER")]
      = ([("a", [Value.vInt 7]), ("b", [Value.vStr "1.5"])],
         some "Failed to convert column 'b' to INTEGER: cannot safely cast non-equivalent float64 to int64") ∧
    ([Value.vInt 7] : List Value) ≠ [Value.vStr "7"] :=
  ⟨by decide, by decide⟩

/-- C5: for an integer-family schema column the coercion branch, run
after the pre-pass, (a) succeeds whenever every parsed value is an exact
integer, producing exactly the parse-or-NULL image of the column, and
(b) on any successful run every resulting cell is a well-formed integer
or NULL, with each cell whose numeric parse fails (NaN under coerce)
ending as NULL at the same position — not an error and not zero. -/
theorem c5_integer_family (ty : String) (col : List Value)
    (hty : (strHas ty "INTEGER" || strHas ty "BIGINT") = true) :
    ((((col.map prePassCell).map toNumeric).all
        (fun q => match q with | none => true | some q => q.isIntegral)) = true →
      convertCol ty (col.map prePassCell)
        = .ok (((col.map prePassCell).map toNumeric).map
            (fun q => match q with
              | none => Value.vNone
              | some q => Value.vInt q.toInt))) ∧
    (∀ out, convertCol ty (col.map prePassCell) = .ok out →
      (∀ v ∈ out, (∃ n, v = Value.vInt n) ∨ v = Value.vNone) ∧
      (∀ (i : Nat) (v : Value), (col.map prePassCell)[i]? = some v → toNumeric v = none →
        out[i]? = some Value.vNone)) := by
  constructor
  · intro hall
    simp only [convertCol, hty, if_true, intCoerceCol, hall]
  · intro out hout
    simp only [convertCol, hty, if_true, intCoerceCol] at hout
    split at hout
    · cases hout
      constructor
      · intro v hv
        obtain ⟨q, _, hq⟩ := List.mem_map.mp hv
        cases q with
        | none => right; exact hq.symm
        | some q => left; exact ⟨q.toInt, hq.symm⟩
      · intro i v hi hnum
        rw [getElem?_map_pipe, getElem?_map_pipe, hi]
        simp [hnum]
    · cases hout

/-- C5 witness: on the column ["abc", "42.0"] under type INTEGER the
branch succeeds, the unparseable "abc" lands as NULL and "42.0" as the
integer 42, and position 0 is NULL. -/
theorem c5_integer_family_witness :
    convertCol "INTEGER" ([Value.vStr "abc", Value.vStr "42.0"].map prePassCell)
      = .ok [Value.vNone, Value.vInt 42] ∧
    [Value.vNone, Value.vInt 42][0]? = some Value.vNone :=
  ⟨(c5_integer_family "INTEGER" [Value.vStr "abc", Value.vStr "42.0"] (by decide)).1
      (by decide),
   ((c5_integer_family "INTEGER" [Value.vStr "abc", Value.vStr "42.0"] (by decide)).2
      [Value.vNone, Value.vInt 42] rfl).2 0 (Value.vStr "abc") rfl rfl⟩

/-- C7: for a text-family schema column, the coercion branch (after the
pre-pass) converts every cell to its textual representation, and a
missing cell (NaN) becomes exactly the single-space placeholder " " —
never an empty string and never NULL. -/
theorem c7_text_family (ty : String) (col : List Value)
    (h1 : (strHas ty "INTEGER" || strHas ty "BIGINT") = false)
    (h2 : (strHas ty "VARCHAR" || strHas ty "TEXT") = true) :
    convertCol ty (col.map prePassCell) = .ok ((col.map prePassCell).map textCoerceCell) ∧
    (∀ v ∈ (col.map prePassCell).map textCoerceCell, ∃ s : String, v = Value.vStr s) ∧
    (∀ (i : Nat), col[i]? = some Value.vNaN →
      ((col.map prePassCell).map textCoerceCell)[i]? = some (Value.vStr " ")) := by
  refine ⟨by simp only [convertCol, h1, h2, if_true, Bool.false_eq_true, if_false], ?_, ?_⟩
  · intro v hv
    obtain ⟨u, _, hu⟩ := List.mem_map.mp hv
    exact ⟨_, hu.symm⟩
  · intro i hi
    rw [getElem?_map_pipe, getElem?_map_pipe, hi]
    rfl

/-- C7 witness: a NaN cell in a TEXT column becomes the single-space
placeholder. -/
theorem c7_text_family_witness :
    (([Value.vNaN].map prePassCell).map textCoerceCell)[0]? = some (Value.vStr " ") :=
  (c7_text_family "TEXT" [Value.vNaN] (by decide) (by decide)).2.2 0 rfl

/-- C10: for a BOOLEAN schema column, the coercion branch (after the
pre-pass) maps every cell — including missing ones — to one of the two
booleans, never NULL, and a missing cell (NaN) becomes True (NaN is
truthy, both as a raw float and as the pre-pass string "nan"). -/
theorem c10_boolean_family (ty : String) (col : List Value)
    (h1 : (strHas ty "INTEGER" || strHas ty "BIGINT") = false)
    (h2 : (strHas ty "VARCHAR" || strHas ty "TEXT") = false)
    (h3 : strHas ty "BOOLEAN" = true) :
    convertCol ty (col.map prePassCell)
      = .ok ((col.map prePassCell).map (fun v => Value.vBool (pyTruthy v))) ∧
    (∀ v ∈ (col.map prePassCell).map (fun v => Value.vBool (pyTruthy v)),
      (v = Value.vBool true ∨ v = Value.vBool false) ∧ v ≠ Value.vNone) ∧
    (∀ (i : Nat), col[i]? = some Value.vNaN →
      ((col.map prePassCell).map (fun v => Value.vBool (pyTruthy v)))[i]?
        = some (Value.vBool true)) := by
  refine ⟨by simp only [convertCol, h1, h2, h3, if_true, Bool.false_eq_true, if_false], ?_, ?_⟩
  · intro v hv
    obtain ⟨u, _, hu⟩ := List.mem_map.mp hv
    cases hb : pyTruthy u with
    | true => exact ⟨Or.inl (by rw [← hu, hb]), by rw [← hu]; exact fun hcon => Value.noConfusion hcon⟩
    | false => exact ⟨Or.inr (by rw [← hu, hb]), by rw [← hu]; exact fun hcon => Value.noConfusion hcon⟩
  · intro i hi
    rw [getElem?_map_pipe, getElem?_map_pipe, hi]
    rfl

/-- C10 witness: a NaN cell in a BOOLEAN column becomes True. -/
theorem c10_boolean_family_witness :
    (([Value.vNaN].map prePassCell).map (fun v => Value.vBool (pyTruthy v)))[0]?
      = some (Value.vBool true) :=
  (c10_boolean_family "BOOLEAN" [Value.vNaN] (by decide) (by decide) (by decide)).2.2 0 rfl

/-- C8: the datetime normalizer parses each string cell of a listed
column against the fixed format MM-DD-YYYY HH:MM:SS; a successfully
parsed (naive) value becomes the same instant tagged UTC — in
particular "03-15-2024 10:30:00" becomes 2024-03-15T10:30:00Z — and a
string that fails to parse becomes NULL, not an error. -/
theorem c8_datetime_normalizer (col : List Value) (i : Nat) (s : String)
    (h : col[i]? = some (Value.vStr s)) :
    (∀ mo d y hh mi sec, strptimeMdyHms s = some (mo, d, y, hh, mi, sec) →
      (parse_datetime_column col)[i]? = some (Value.vDatetime y mo d hh mi sec true)) ∧
    (strptimeMdyHms s = none → (parse_datetime_column col)[i]? = some Value.vNone) ∧
    (s = "03-15-2024 10:30:00" →
      (parse_datetime_column col)[i]? = some (Value.vDatetime 2024 3 15 10 30 0 true)) := by
  have hcell : (parse_datetime_column col)[i]?
      = some (natToNoneCell (localizeUTCCell (parseDtCell (Value.vStr s)))) := by
    unfold parse_datetime_column
    rw [getElem?_map_pipe, getElem?_map_pipe, getElem?_map_pipe, h]
    rfl
  refine ⟨?_, ?_, ?_⟩
  · intro mo d y hh mi sec hp
    rw [hcell]
    simp [parseDtCell, hp, localizeUTCCell, natToNoneCell]
  · intro hp
    rw [hcell]
    simp [parseDtCell, hp, localizeUTCCell, natToNoneCell]
  · intro hs
    subst hs
    rw [hcell]
    rfl

/-- C8 witness: the two spec literals — "03-15-2024 10:30:00" normalizes
to the UTC instant 2024-03-15T10:30:00Z and "not-a-date" to NULL. -/
theorem c8_datetime_normalizer_witness :
    (parse_datetime_column [Value.vStr "03-15-2024 10:30:00"])[0]?
      = some (Value.vDatetime 2024 3 15 10 30 0 true) ∧
    (parse_datetime_column [Value.vStr "not-a-date"])[0]? = some Value.vNone :=
  ⟨(c8_datetime_normalizer [Value.vStr "03-15-2024 10:30:00"] 0 _ rfl).2.2 rfl,
   (c8_datetime_normalizer [Value.vStr "not-a-date"] 0 _ rfl).2.1 (by decide)⟩

/-- C1: if writing any row of the batch fails, the whole transaction is
rolled back — the call returns the destination table exactly as it was,
with an error message wrapping the cause — so no subset of the batch's
rows is applied. -/
theorem c1_upsert_transaction_atomic (k : String) (ok : Row → Bool) (t : Table)
    (batch : List Row) (e : String)
    (h : (runBatchNoTx k ok t batch).2 = some e) :
    upsert_dataframe_to_postgres k ok t batch
      = ⟨t, some (upsertErrorText e), none⟩ := by
  unfold upsert_dataframe_to_postgres
  rcases hrun : runBatchNoTx k ok t batch with ⟨t1, err⟩
  rw [hrun] at h
  cases err with
  | none => cases h
  | some e2 =>
      cases h
      rfl

/-- C1 witness: a two-record batch whose second record violates the
destination constraint leaves the one-row table exactly as it was, with
the wrapped error. -/
theorem c1_upsert_transaction_atomic_witness :
    upsert_dataframe_to_postgres "id"
        (fun r => !(getCol r "a" == some (Value.vStr "bad")))
        [[("id", Value.vInt 1), ("a", Value.vStr "x")]]
        [[("id", Value.vInt 2), ("a", Value.vStr "w")],
         [("id", Value.vInt 3), ("a", Value.vStr "bad")]]
      = ⟨[[("id", Value.vInt 1), ("a", Value.vStr "x")]],
         some (upsertErrorText "new row violates a destination constraint"), none⟩ :=
  c1_upsert_transaction_atomic "id"
    (fun r => !(getCol r "a" == some (Value.vStr "bad")))
    [[("id", Value.vInt 1), ("a", Value.vStr "x")]]
    [[("id", Value.vInt 2), ("a", Value.vStr "w")],
     [("id", Value.vInt 3), ("a", Value.vStr "bad")]]
    "new row violates a destination constraint" (by decide)

theorem getCol_cons (c c1 : String) (v1 : Value) (l : Row) :
    getCol ((c1, v1) :: l) c = if c = c1 then some v1 else getCol l c := by
  by_cases h : c = c1
  · subst h; simp [getCol, List.lookup]
  · have hb : (c == c1) = false := beq_eq_false_iff_ne.mpr h
    simp [getCol, List.lookup, hb, h]

theorem mergeRow_cons (k : String) (r : Row) (c1 : String) (v1 : Value) (l : Row) :
    mergeRow k ((c1, v1) :: l) r
      = (if c1 = k then (c1, v1) else (c1, (getCol r c1).getD v1)) :: mergeRow k l r := by
  by_cases h : c1 = k <;> simp [mergeRow, h]

theorem getCol_mergeRow (k : String) (r : Row) (c : String) : ∀ row : Row,
    getCol (mergeRow k row r) c
      = (getCol row c).map (fun v => if c = k then v else (getCol r c).getD v) := by
  intro row
  induction row with
  | nil => rfl
  | cons p l ih =>
      obtain ⟨c1, v1⟩ := p
      rw [mergeRow_cons]
      by_cases hck : c1 = k
      · rw [if_pos hck]
        by_cases hc : c = c1
        · rw [getCol_cons, if_pos hc, getCol_cons, if_pos hc]
          subst hck; subst hc
          simp
        · rw [getCol_cons, if_neg hc, getCol_cons, if_neg hc, ih]
      · rw [if_neg hck]
        by_cases hc : c = c1
        · rw [getCol_cons, if_pos hc, getCol_cons, if_pos hc]
          subst hc
          simp [hck]
        · rw [getCol_cons, if_neg hc, getCol_cons, if_neg hc, ih]

theorem getCol_mergeRow_key (k : String) (r row : Row) :
    getCol (mergeRow k row r) k = getCol row k := by
  rw [getCol_mergeRow]
  cases getCol row k <;> simp

/-- C3: when the incoming record's unique-key value already exists in
the table, the engine updates the conflicting row in place — the table
keeps its length (no duplicate row is inserted), the row's key is
untouched, and every non-key column the record carries is set to the
record's (incoming) value. -/
theorem c3_upsert_updates_in_place (k : String) (ok : Row → Bool) (t : Table) (r : Row)
    (hc : t.any (fun row => conflicts k r row) = true)
    (hok : ((t.filter (fun row => conflicts k r row)).map
      (fun row => mergeRow k row r)).all ok = true) :
    upsertRow k ok t r
      = .ok (t.map (fun row => if conflicts k r row then mergeRow k row r else row)) ∧
    (t.map (fun row => if conflicts k r row then mergeRow k row r else row)).length
      = t.length ∧
    ∀ row ∈ t, conflicts k r row = true →
      getCol (mergeRow k row r) k = getCol row k ∧
      ∀ (c : String) (w : Value), c ≠ k → getCol r c = some w → (getCol row c).isSome →
        getCol (mergeRow k row r) c = some w := by
  refine ⟨by simp [upsertRow, hc, hok], List.length_map _ _, ?_⟩
  intro row _ _
  refine ⟨getCol_mergeRow_key k r row, ?_⟩
  intro c w hck hrc hrow
  rw [getCol_mergeRow]
  obtain ⟨v, hv⟩ := Option.isSome_iff_exists.mp hrow
  rw [hv]
  simp [hck, hrc]

/-- C3 witness: upserting a record whose key 1 is already present
updates that row in place (no second row appears) and sets its non-key
column a to the incoming value "y". -/
theorem c3_upsert_updates_in_place_witness :
    upsertRow "id" (fun _ => true)
        [[("id", Value.vInt 1), ("a", Value.vStr "x")]]
        [("id", Value.vInt 1), ("a", Value.vStr "y")]
      = .ok [[("id", Value.vInt 1), ("a", Value.vStr "y")]] ∧
    getCol (mergeRow "id" [("id", Value.vInt 1), ("a", Value.vStr "x")]
        [("id", Value.vInt 1), ("a", Value.vStr "y")]) "a" = some (Value.vStr "y") :=
  ⟨((c3_upsert_updates_in_place "id" (fun _ => true)
      [[("id", Value.vInt 1), ("a", Value.vStr "x")]]
      [("id", Value.vInt 1), ("a", Value.vStr "y")] (by decide) (by decide)).1).trans rfl,
   ((c3_upsert_updates_in_place "id" (fun _ => true)
      [[("id", Value.vInt 1), ("a", Value.vStr "x")]]
      [("id", Value.vInt 1), ("a", Value.vStr "y")] (by decide) (by decide)).2.2
      [("id", Value.vInt 1), ("a", Value.vStr "x")] (by decide) (by decide)).2
      "a" (Value.vStr "y") (by decide) (by decide) (by decide)⟩

theorem conflicts_mergeRow (k : String) (r2 row r : Row) :
    conflicts k r2 (mergeRow k row r) = conflicts k r2 row := by
  unfold conflicts
  rw [getCol_mergeRow_key]

theorem getCol_of_nodup : ∀ (r : Row), (r.map Prod.fst).Nodup →
    ∀ c v, (c, v) ∈ r → getCol r c = some v := by
  intro r
  induction r with
  | nil => intro _ c v h; cases h
  | cons p l ih =>
      intro hn c v hm
      obtain ⟨c1, v1⟩ := p
      rw [List.map_cons] at hn
      rcases List.mem_cons.mp hm with heq | htl
      · have h1 : c = c1 := congrArg Prod.fst heq
        have h2 : v = v1 := congrArg Prod.snd heq
        rw [getCol_cons, if_pos h1, h2]
      · have hc1 : c ≠ c1 := by
          intro hcc
          apply (List.nodup_cons.mp hn).1
          rw [← hcc]
          exact List.mem_map.mpr ⟨(c, v), htl, rfl⟩
        rw [getCol_cons, if_neg hc1]
        exact ih (List.nodup_cons.mp hn).2 c v htl

theorem conflicts_self (k : String) (r : Row) (v : Value)
    (hv : getCol r k = some v) (hvn : v ≠ Value.vNone) :
    conflicts k r r = true := by
  simp [conflicts, hv, hvn]

theorem upsertRow_update_eq (k : String) (ok : Row → Bool) (t : Table) (r : Row)
    (hc : t.any (fun row => conflicts k r row) = true)
    (hall : ((t.filter (fun row => conflicts k r row)).map
      (fun row => mergeRow k row r)).all ok = true) :
    upsertRow k ok t r
      = .ok (t.map (fun row => if conflicts k r row then mergeRow k row r else row)) := by
  simp [upsertRow, hc, hall]

theorem upsertRow_insert_eq (k : String) (ok : Row → Bool) (t : Table) (r : Row)
    (hc : t.any (fun row => conflicts k r row) = false)
    (hok : ok r = true) :
    upsertRow k ok t r = .ok (t ++ [r]) := by
  simp [upsertRow, hc, hok]

theorem mergeRow_map_fst (k : String) (row r : Row) :
    (mergeRow k row r).map Prod.fst = row.map Prod.fst := by
  unfold mergeRow
  rw [List.map_map]
  apply List.map_congr_left
  intro p _
  by_cases h : p.1 = k <;> simp [h]

theorem getCol_some_mem_fst (r : Row) (c : String) :
    ∀ w, getCol r c = some w → c ∈ r.map Prod.fst := by
  induction r with
  | nil => intro w h; cases h
  | cons p l ih =>
      intro w h
      obtain ⟨c1, v1⟩ := p
      rw [getCol_cons] at h
      by_cases hc : c = c1
      · rw [List.map_cons, hc]
        exact List.mem_cons_self _ _
      · rw [if_neg hc] at h
        exact List.mem_cons_of_mem _ (ih w h)

theorem getCol_isSome_of_mem_fst (r : Row) (c : String) (h : c ∈ r.map Prod.fst) :
    (getCol r c).isSome := by
  induction r with
  | nil => cases h
  | cons p l ih =>
      obtain ⟨c1, v1⟩ := p
      rw [getCol_cons]
      by_cases hc : c = c1
      · rw [if_pos hc]; rfl
      · rw [if_neg hc]
        apply ih
        rcases List.mem_cons.mp h with heq | htl
        · exact absurd heq hc
        · exact htl

/-- A merge with a full-column record overrides any earlier full-column
merge: the later record's values land on every batch column, and the
other positions are untouched by both merges. -/
theorem mergeRow_override (k : String) (cols : List String) (r r2 : Row)
    (hr : r.map Prod.fst = cols) (hr2 : r2.map Prod.fst = cols) :
    ∀ x : Row, mergeRow k (mergeRow k x r2) r = mergeRow k x r := by
  intro x
  induction x with
  | nil => rfl
  | cons p l ih =>
      obtain ⟨c, v⟩ := p
      rw [mergeRow_cons]
      by_cases hck : c = k
      · rw [if_pos hck, mergeRow_cons, if_pos hck, mergeRow_cons, if_pos hck, ih]
      · rw [if_neg hck, mergeRow_cons, if_neg hck, mergeRow_cons, if_neg hck, ih]
        cases hgc : getCol r c with
        | some w => rfl
        | none =>
            have hnc : c ∉ cols := by
              intro hmem
              rw [← hr] at hmem
              have := getCol_isSome_of_mem_fst r c hmem
              rw [hgc] at this
              cases this
            have hgc2 : getCol r2 c = none := by
              cases hg2 : getCol r2 c with
              | none => rfl
              | some w2 =>
                  exact absurd (hr2 ▸ getCol_some_mem_fst r2 c w2 hg2) hnc
            rw [hgc2]
            rfl

theorem me_trans (k : String) (cols : List String) (x y z : Row)
    (h1 : MergeEvolved k cols x y) (h2 : MergeEvolved k cols y z) :
    MergeEvolved k cols x z := by
  induction h2 with
  | refl => exact h1
  | step y2 r2 h hr ih => exact MergeEvolved.step x y2 r2 ih hr

theorem me_getCol_key (k : String) (cols : List String) (x y : Row)
    (h : MergeEvolved k cols x y) : getCol y k = getCol x k := by
  induction h with
  | refl => rfl
  | step y2 r2 h hr ih => rw [getCol_mergeRow_key, ih]

theorem me_map_fst (k : String) (cols : List String) (x y : Row)
    (h : MergeEvolved k cols x y) : y.map Prod.fst = x.map Prod.fst := by
  induction h with
  | refl => rfl
  | step y2 r2 h hr ih => rw [mergeRow_map_fst, ih]

/-- Merging any evolution of `x` with a full-column record gives the
same row as merging `x` itself. -/
theorem me_merge (k : String) (cols : List String) (x y r : Row)
    (h : MergeEvolved k cols x y) (hr : r.map Prod.fst = cols) :
    mergeRow k y r = mergeRow k x r := by
  induction h with
  | refl => rfl
  | step y2 r2 h hr2 ih => rw [mergeRow_override k cols r r2 hr hr2, ih]

theorem me_step_ite (k : String) (cols : List String) (x y r : Row) (c : Bool)
    (h : MergeEvolved k cols x y) (hr : r.map Prod.fst = cols) :
    MergeEvolved k cols x (if c then mergeRow k y r else y) := by
  cases c with
  | true => exact MergeEvolved.step x y r h hr
  | false => exact h

theorem conflicts_congr (k : String) (r x y : Row)
    (h : getCol x k = getCol y k) : conflicts k r x = conflicts k r y := by
  unfold conflicts
  rw [h]

theorem conflicts_true_iff (k : String) (r x : Row) :
    conflicts k r x = true ↔
      ∃ v, getCol r k = some v ∧ getCol x k = some v ∧ v ≠ Value.vNone := by
  unfold conflicts
  cases h1 : getCol r k with
  | none => simp
  | some v =>
      cases h2 : getCol x k with
      | none => simp
      | some w =>
          simp only [decide_eq_true_eq]
          constructor
          · rintro ⟨hvw, hn⟩
            exact ⟨v, rfl, by rw [hvw], hn⟩
          · rintro ⟨v2, hv2, hw2, hn2⟩
            injection hv2 with hv2e
            injection hw2 with hw2e
            constructor
            · rw [hv2e, hw2e]
            · rw [hv2e]
              exact hn2

/-- Success-shape inversion for one upsert statement. -/
theorem upsertRow_ok_cases (k : String) (ok : Row → Bool) (t : Table) (r : Row)
    (t1 : Table) (h : upsertRow k ok t r = .ok t1) :
    (t.any (fun row => conflicts k r row) = true ∧
     ((t.filter (fun row => conflicts k r row)).map
       (fun row => mergeRow k row r)).all ok = true ∧
     t1 = t.map (fun row => if conflicts k r row then mergeRow k row r else row)) ∨
    (t.any (fun row => conflicts k r row) = false ∧ ok r = true ∧ t1 = t ++ [r]) := by
  unfold upsertRow at h
  by_cases hany : t.any (fun row => conflicts k r row) = true
  · rw [if_pos hany] at h
    by_cases hall : ((t.filter (fun row => conflicts k r row)).map
        (fun row => mergeRow k row r)).all ok = true
    · rw [if_pos hall] at h
      left
      refine ⟨hany, hall, ?_⟩
      injection h with h2
      exact h2.symm
    · rw [if_neg hall] at h
      cases h
  · rw [if_neg hany] at h
    by_cases hok : ok r = true
    · rw [if_pos hok] at h
      right
      refine ⟨Bool.eq_false_iff.mpr hany, hok, ?_⟩
      injection h with h2
      exact h2.symm
    · rw [if_neg hok] at h
      cases h

/-- Along a successful run, every existing row only grows by merge steps
with the batch's records: the final table extends the current one
positionally, each current row evolving into the final row at the same
position. -/
theorem runBatch_evolve (k : String) (ok : Row → Bool) (cols : List String) :
    ∀ (b : List Row) (s t2 : Table),
      (∀ r ∈ b, r.map Prod.fst = cols) →
      runBatchNoTx k ok s b = (t2, none) →
      s.length ≤ t2.length ∧
      ∀ i (hi : i < s.length), ∃ hi2 : i < t2.length,
        MergeEvolved k cols (s[i]) (t2[i]) := by
  intro b
  induction b with
  | nil =>
      intro s t2 _ h
      have hs : s = t2 := congrArg Prod.fst h
      subst hs
      exact ⟨Nat.le_refl _, fun i hi => ⟨hi, MergeEvolved.refl _⟩⟩
  | cons r b2 ih =>
      intro s t2 hcols hrun
      cases hstep : upsertRow k ok s r with
      | error e =>
          rw [runBatchNoTx, hstep] at hrun
          have h2 : (some e : Option String) = none := congrArg Prod.snd hrun
          cases h2
      | ok s1 =>
          rw [runBatchNoTx, hstep] at hrun
          have hrest := ih s1 t2 (fun r2 h2 => hcols r2 (List.mem_cons_of_mem _ h2)) hrun
          have hrcols : r.map Prod.fst = cols := hcols r (List.mem_cons_self r b2)
          rcases upsertRow_ok_cases k ok s r s1 hstep with
            ⟨_, _, hs1⟩ | ⟨_, _, hs1⟩
          · subst hs1
            constructor
            · calc s.length
                  = (s.map (fun row =>
                      if conflicts k r row then mergeRow k row r else row)).length :=
                    (List.length_map _ _).symm
                _ ≤ t2.length := hrest.1
            · intro i hi
              have hi1 : i < (s.map (fun row =>
                  if conflicts k r row then mergeRow k row r else row)).length := by
                rw [List.length_map]; exact hi
              obtain ⟨hi2, hme⟩ := hrest.2 i hi1
              refine ⟨hi2, ?_⟩
              apply me_trans k cols _ _ _ _ hme
              rw [List.getElem_map]
              exact me_step_ite k cols _ _ r _ (MergeEvolved.refl _) hrcols
          · subst hs1
            constructor
            · calc s.length ≤ (s ++ [r]).length := by
                    rw [List.length_append]; omega
                _ ≤ t2.length := hrest.1
            · intro i hi
              have hi1 : i < (s ++ [r]).length := by
                rw [List.length_append]; omega
              obtain ⟨hi2, hme⟩ := hrest.2 i hi1
              refine ⟨hi2, ?_⟩
              rw [List.getElem_append_left] at hme
              exact hme

/-- Key freshness: once a key value is present in the table, every row a
successful rest-of-run appends carries a different (or NULL) key — a
record with an already-present key updates instead of inserting, so the
appended rows' keys cannot conflict with any record that conflicts with
a current row. -/
theorem runBatch_fresh (k : String) (ok : Row → Bool) (cols : List String) :
    ∀ (b : List Row) (s t2 : Table),
      (∀ r2 ∈ b, r2.map Prod.fst = cols) →
      runBatchNoTx k ok s b = (t2, none) →
      ∀ (r : Row), (∃ row ∈ s, conflicts k r row = true) →
      ∀ i (hi : i < t2.length), s.length ≤ i → conflicts k r (t2[i]) = false := by
  intro b
  induction b with
  | nil =>
      intro s t2 _ h r _ i hi hle
      have hs : s = t2 := congrArg Prod.fst h
      subst hs
      omega
  | cons r1 b2 ih =>
      intro s t2 hcols hrun r hwit i hi hle
      cases hstep : upsertRow k ok s r1 with
      | error e =>
          rw [runBatchNoTx, hstep] at hrun
          have h2 : (some e : Option String) = none := congrArg Prod.snd hrun
          cases h2
      | ok s1 =>
          rw [runBatchNoTx, hstep] at hrun
          have hcols2 : ∀ r2 ∈ b2, r2.map Prod.fst = cols :=
            fun r2 h2 => hcols r2 (List.mem_cons_of_mem _ h2)
          obtain ⟨row, hrowmem, hrowc⟩ := hwit
          rcases upsertRow_ok_cases k ok s r1 s1 hstep with
            ⟨_, _, hs1⟩ | ⟨hanyf, _, hs1⟩
          · -- update step: lengths unchanged, the conflicting row persists
            subst hs1
            apply ih _ t2 hcols2 hrun r ?_ i hi ?_
            · refine ⟨(fun row2 => if conflicts k r1 row2 then mergeRow k row2 r1
                else row2) row, List.mem_map_of_mem _ hrowmem, ?_⟩
              show conflicts k r
                (if conflicts k r1 row then mergeRow k row r1 else row) = true
              by_cases hc1 : conflicts k r1 row = true
              · rw [if_pos hc1]
                rw [conflicts_congr k r _ row (getCol_mergeRow_key k r1 row)]
                exact hrowc
              · rw [if_neg hc1]
                exact hrowc
            · rw [List.length_map]
              exact hle
          · -- insert step: the appended record's key is absent from s
            subst hs1
            have hwit1 : ∃ row2 ∈ s ++ [r1], conflicts k r row2 = true :=
              ⟨row, List.mem_append_left _ hrowmem, hrowc⟩
            rcases Nat.lt_or_ge i (s.length + 1) with hlt | hge
            · -- i = s.length: the row there evolved from r1, whose key is fresh
              have hieq : i = s.length := by omega
              subst hieq
              have hev := runBatch_evolve k ok cols b2 (s ++ [r1]) t2 hcols2 hrun
              have hi1 : s.length < (s ++ [r1]).length := by
                simp only [List.length_append, List.length_singleton]
                omega
              obtain ⟨hi2, hme⟩ := hev.2 s.length hi1
              have hget : (s ++ [r1])[s.length] = r1 := by
                rw [List.getElem_append_right (Nat.le_refl _)]
                simp
              rw [hget] at hme
              rw [conflicts_congr k r _ r1 (me_getCol_key k cols r1 _ hme)]
              -- conflicts k r r1 = false, else r1 would have conflicted with row
              cases hc : conflicts k r r1 with
              | false => rfl
              | true =>
                  obtain ⟨v, hrv, hr1v, hvn⟩ := (conflicts_true_iff k r r1).mp hc
                  obtain ⟨v2, hrv2, hrowv2, hvn2⟩ := (conflicts_true_iff k r row).mp hrowc
                  have hvv : v = v2 := by
                    rw [hrv] at hrv2
                    injection hrv2
                  have hc2 : conflicts k r1 row = true :=
                    (conflicts_true_iff k r1 row).mpr ⟨v2, by rw [← hvv]; exact hr1v,
                      hrowv2, hvn2⟩
                  exact absurd hc2 (List.any_eq_false.mp hanyf row hrowmem)
            · -- i past the appended record: recurse from s ++ [r1]
              apply ih _ t2 hcols2 hrun r hwit1 i hi ?_
              simp only [List.length_append, List.length_singleton]
              omega

/-- Merging any row that carries the record's own column list and key
value with that record yields the record itself: every non-key column
receives the record's value and the key column already agrees. -/
theorem mergeRow_into_record (k : String) (y r : Row)
    (hfst : y.map Prod.fst = r.map Prod.fst)
    (hnd : (r.map Prod.fst).Nodup)
    (hkey : getCol y k = getCol r k) :
    mergeRow k y r = r := by
  have hndy : (y.map Prod.fst).Nodup := by rw [hfst]; exact hnd
  have hlen : y.length = r.length := by
    have h2 := congrArg List.length hfst
    rw [List.length_map, List.length_map] at h2
    exact h2
  have hmlen : (mergeRow k y r).length = y.length := List.length_map _ _
  apply List.ext_getElem (by rw [hmlen, hlen])
  intro i h1 h2
  have hy : i < y.length := by rw [hmlen] at h1; exact h1
  have hfy : i < (y.map Prod.fst).length := by rw [List.length_map]; exact hy
  have hfr : i < (r.map Prod.fst).length := by rw [List.length_map]; exact h2
  have hname : (y[i]).1 = (r[i]).1 := by
    have h3 := List.getElem_of_eq hfst hfy
    rw [List.getElem_map, List.getElem_map] at h3
    exact h3
  have hgy : getCol y ((y[i]).1) = some ((y[i]).2) :=
    getCol_of_nodup y hndy _ _ (List.getElem_mem hy)
  have hgr : getCol r ((r[i]).1) = some ((r[i]).2) :=
    getCol_of_nodup r hnd _ _ (List.getElem_mem h2)
  show (y.map (fun p => if p.1 = k then p
      else (p.1, (getCol r p.1).getD p.2)))[i] = r[i]
  rw [List.getElem_map]
  by_cases hck : (y[i]).1 = k
  · rw [if_pos hck]
    have hrk : (r[i]).1 = k := by rw [← hname]; exact hck
    rw [hck] at hgy
    rw [hrk] at hgr
    rw [hgy, hgr] at hkey
    injection hkey with hv
    exact Prod.ext hname hv
  · rw [if_neg hck]
    rw [hname, hgr]
    rfl

/-- Replaying the whole batch over the final table of a successful run
reproduces that table row by row: a row the first run wrote is rewritten
through the same sequence of full-column merges, ending at the same last
write (duplicate keys included — last write wins), and a row the run
never touched is never touched again (key freshness).  The invariant:
`u` has the final table's length, rows at or past the first run's
current length already hold their final value, and every earlier row
holds either its current first-run value or its final value. -/
theorem runBatch_replay (k : String) (ok : Row → Bool) (cols : List String)
    (hnodup : cols.Nodup) :
    ∀ (b : List Row) (s u t2 : Table),
      (∀ r ∈ b, r.map Prod.fst = cols) →
      (∀ r ∈ b, ∃ v, getCol r k = some v ∧ v ≠ Value.vNone) →
      runBatchNoTx k ok s b = (t2, none) →
      u.length = t2.length →
      (∀ i (hu : i < u.length) (ht : i < t2.length), s.length ≤ i → u[i] = t2[i]) →
      (∀ i (hs : i < s.length) (hu : i < u.length) (ht : i < t2.length),
        u[i] = s[i] ∨ u[i] = t2[i]) →
      runBatchNoTx k ok u b = (t2, none) := by
  intro b
  induction b with
  | nil =>
      intro s u t2 _ _ hrun hlen hupper hlower
      have hs : s = t2 := congrArg Prod.fst hrun
      subst hs
      have hu : u = s := by
        apply List.ext_getElem hlen
        intro i h1 h2
        by_cases hi : i < s.length
        · rcases hlower i hi h1 h2 with h | h <;> exact h
        · exact hupper i h1 h2 (Nat.le_of_not_lt hi)
      rw [runBatchNoTx, hu]
  | cons r b2 ih =>
      intro s u t2 hcols hkeys hrun hlen hupper hlower
      cases hstep : upsertRow k ok s r with
      | error e =>
          rw [runBatchNoTx, hstep] at hrun
          have h2 : (some e : Option String) = none := congrArg Prod.snd hrun
          cases h2
      | ok s1 =>
          rw [runBatchNoTx, hstep] at hrun
          have hfull : runBatchNoTx k ok s (r :: b2) = (t2, none) := by
            rw [runBatchNoTx, hstep]
            exact hrun
          have hcols2 : ∀ r2 ∈ b2, r2.map Prod.fst = cols :=
            fun r2 h2 => hcols r2 (List.mem_cons_of_mem _ h2)
          have hkeys2 : ∀ r2 ∈ b2, ∃ v, getCol r2 k = some v ∧ v ≠ Value.vNone :=
            fun r2 h2 => hkeys r2 (List.mem_cons_of_mem _ h2)
          have hrcols : r.map Prod.fst = cols := hcols r (List.mem_cons_self r b2)
          have hev := runBatch_evolve k ok cols (r :: b2) s t2 hcols hfull
          rcases upsertRow_ok_cases k ok s r s1 hstep with
            ⟨hany, hall, hs1eq⟩ | ⟨hanyf, hokr, hs1eq⟩
          · -- the first run updated: replay updates the same rows to the
            -- same values (a later merge overrides an earlier one)
            subst hs1eq
            obtain ⟨row, hrowm, hrowc⟩ := List.any_eq_true.mp hany
            have hFC : ∀ i (hs2 : i < s.length) (hu2 : i < u.length)
                (ht2 : i < t2.length),
                conflicts k r (u[i]) = conflicts k r (s[i]) := by
              intro i hs2 hu2 ht2
              rcases hlower i hs2 hu2 ht2 with h | h
              · rw [h]
              · rw [h]
                obtain ⟨_, hme⟩ := hev.2 i hs2
                exact conflicts_congr k r _ _ (me_getCol_key k cols _ _ hme)
            have hFF : ∀ i (hu2 : i < u.length) (ht2 : i < t2.length),
                s.length ≤ i → conflicts k r (u[i]) = false := by
              intro i hu2 ht2 hle
              rw [hupper i hu2 ht2 hle]
              exact runBatch_fresh k ok cols (r :: b2) s t2 hcols hfull r
                ⟨row, hrowm, hrowc⟩ i ht2 hle
            have hF2 : u.any (fun row2 => conflicts k r row2) = true := by
              obtain ⟨j, hj, hjeq⟩ := List.mem_iff_getElem.mp hrowm
              have hjt : j < t2.length := Nat.lt_of_lt_of_le hj hev.1
              have hju : j < u.length := by omega
              apply List.any_eq_true.mpr
              refine ⟨u[j], List.getElem_mem hju, ?_⟩
              rw [hFC j hj hju hjt, hjeq]
              exact hrowc
            have hF3 : ((u.filter (fun row2 => conflicts k r row2)).map
                (fun row2 => mergeRow k row2 r)).all ok = true := by
              apply List.all_eq_true.mpr
              intro x hx
              obtain ⟨row2, hrowf, hxeq⟩ := List.mem_map.mp hx
              obtain ⟨hrow2u, hrow2c⟩ := List.mem_filter.mp hrowf
              obtain ⟨j, hju, hjeq⟩ := List.mem_iff_getElem.mp hrow2u
              have hjt : j < t2.length := by omega
              have hjs : j < s.length := by
                by_contra hge
                have := hFF j hju hjt (Nat.le_of_not_lt hge)
                rw [hjeq, hrow2c] at this
                cases this
              have hcand : mergeRow k row2 r = mergeRow k (s[j]) r := by
                rcases hlower j hjs hju hjt with h | h
                · rw [← hjeq, h]
                · rw [← hjeq, h]
                  obtain ⟨_, hme⟩ := hev.2 j hjs
                  exact me_merge k cols _ _ r hme hrcols
              rw [← hxeq, hcand]
              apply List.all_eq_true.mp hall
              apply List.mem_map_of_mem
              apply List.mem_filter.mpr
              refine ⟨List.getElem_mem hjs, ?_⟩
              rw [← hFC j hjs hju hjt, hjeq]
              exact hrow2c
            rw [runBatchNoTx, upsertRow_update_eq k ok u r hF2 hF3]
            apply ih (s.map (fun row2 => if conflicts k r row2
                then mergeRow k row2 r else row2)) _ t2 hcols2 hkeys2 hrun
            · rw [List.length_map]
              exact hlen
            · intro i hu2 ht2 hle
              rw [List.length_map] at hle
              have hu3 : i < u.length := by
                rw [List.length_map] at hu2
                exact hu2
              simp only [List.getElem_map]
              rw [hFF i hu3 ht2 hle, if_neg Bool.false_ne_true]
              exact hupper i hu3 ht2 hle
            · intro i hs2 hu2 ht2
              rw [List.length_map] at hs2
              have hu3 : i < u.length := by
                rw [List.length_map] at hu2
                exact hu2
              simp only [List.getElem_map]
              rcases hlower i hs2 hu3 ht2 with h | h
              · left
                rw [h]
              · obtain ⟨_, hme⟩ := hev.2 i hs2
                have hcts : conflicts k r (t2[i]) = conflicts k r (s[i]) :=
                  conflicts_congr k r _ _ (me_getCol_key k cols _ _ hme)
                cases hc : conflicts k r (s[i]) with
                | true =>
                    left
                    rw [h, hcts, hc, if_pos rfl, if_pos rfl]
                    exact me_merge k cols _ _ r hme hrcols
                | false =>
                    right
                    rw [h, hcts, hc, if_neg Bool.false_ne_true]
          · -- the first run inserted: the replay finds the inserted row by
            -- its key and merges the record back onto itself
            subst hs1eq
            obtain ⟨v, hv, hvn⟩ := hkeys r (List.mem_cons_self r b2)
            have hev1 := runBatch_evolve k ok cols b2 (s ++ [r]) t2 hcols2 hrun
            have hp1 : s.length < (s ++ [r]).length := by
              simp only [List.length_append, List.length_singleton]
              omega
            obtain ⟨hpt, hmep⟩ := hev1.2 s.length hp1
            have hget : (s ++ [r])[s.length] = r := by
              rw [List.getElem_append_right (Nat.le_refl _)]
              simp
            rw [hget] at hmep
            have hkeyp : getCol (t2[s.length]) k = some v := by
              rw [me_getCol_key k cols _ _ hmep]
              exact hv
            have hIC1 : ∀ i (hs2 : i < s.length) (hu2 : i < u.length)
                (ht2 : i < t2.length), conflicts k r (u[i]) = false := by
              intro i hs2 hu2 ht2
              have hsf : conflicts k r (s[i]) = false :=
                Bool.eq_false_iff.mpr (List.any_eq_false.mp hanyf _ (List.getElem_mem hs2))
              rcases hlower i hs2 hu2 ht2 with h | h
              · rw [h]
                exact hsf
              · rw [h]
                obtain ⟨_, hme⟩ := hev.2 i hs2
                rw [conflicts_congr k r _ _ (me_getCol_key k cols _ _ hme)]
                exact hsf
            have hIC2 : conflicts k r (t2[s.length]) = true :=
              (conflicts_true_iff k r _).mpr ⟨v, hv, hkeyp, hvn⟩
            have hIC3 : ∀ i (ht2 : i < t2.length), s.length + 1 ≤ i →
                conflicts k r (t2[i]) = false := by
              intro i ht2 hle
              apply runBatch_fresh k ok cols b2 (s ++ [r]) t2 hcols2 hrun r
                ⟨r, List.mem_append_right _ (List.mem_singleton.mpr rfl),
                 conflicts_self k r v hv hvn⟩ i ht2
              simp only [List.length_append, List.length_singleton]
              omega
            have hpu : s.length < u.length := by omega
            have hup : u[s.length] = t2[s.length] :=
              hupper s.length hpu hpt (Nat.le_refl _)
            have hF2 : u.any (fun row2 => conflicts k r row2) = true := by
              apply List.any_eq_true.mpr
              refine ⟨u[s.length], List.getElem_mem hpu, ?_⟩
              rw [hup]
              exact hIC2
            have honly : ∀ j (hju : j < u.length), conflicts k r (u[j]) = true →
                u[j] = t2[s.length] := by
              intro j hju hjc
              have hjt : j < t2.length := by omega
              rcases Nat.lt_trichotomy j s.length with hlt | heq | hgt
              · rw [hIC1 j hlt hju hjt] at hjc
                cases hjc
              · subst heq
                exact hup
              · have hje : u[j] = t2[j] := hupper j hju hjt (by omega)
                rw [hje] at hjc
                rw [hIC3 j hjt (by omega)] at hjc
                cases hjc
            have hmr : mergeRow k (t2[s.length]) r = r := by
              apply mergeRow_into_record
              · exact me_map_fst k cols _ _ hmep
              · rw [hrcols]
                exact hnodup
              · rw [hkeyp, hv]
            have hF3 : ((u.filter (fun row2 => conflicts k r row2)).map
                (fun row2 => mergeRow k row2 r)).all ok = true := by
              apply List.all_eq_true.mpr
              intro x hx
              obtain ⟨row2, hrowf, hxeq⟩ := List.mem_map.mp hx
              obtain ⟨hrow2u, hrow2c⟩ := List.mem_filter.mp hrowf
              obtain ⟨j, hju, hjeq⟩ := List.mem_iff_getElem.mp hrow2u
              have hrow2p : row2 = t2[s.length] := by
                rw [← hjeq]
                apply honly j hju
                rw [hjeq]
                exact hrow2c
              rw [← hxeq, hrow2p, hmr]
              exact hokr
            rw [runBatchNoTx, upsertRow_update_eq k ok u r hF2 hF3]
            apply ih (s ++ [r]) _ t2 hcols2 hkeys2 hrun
            · rw [List.length_map]
              exact hlen
            · intro i hu2 ht2 hle
              simp only [List.length_append, List.length_singleton] at hle
              have hu3 : i < u.length := by
                rw [List.length_map] at hu2
                exact hu2
              simp only [List.getElem_map]
              rw [hupper i hu3 ht2 (by omega), hIC3 i ht2 hle,
                if_neg Bool.false_ne_true]
            · intro i hs2 hu2 ht2
              simp only [List.length_append, List.length_singleton] at hs2
              have hu3 : i < u.length := by
                rw [List.length_map] at hu2
                exact hu2
              simp only [List.getElem_map]
              rcases Nat.lt_or_ge i s.length with hlt | hge
              · rw [List.getElem_append_left hlt,
                  hIC1 i hlt hu3 ht2, if_neg Bool.false_ne_true]
                exact hlower i hlt hu3 ht2
              · have hieq : i = s.length := by omega
                subst hieq
                left
                rw [hup, hIC2, if_pos rfl, hmr, hget]

/-- C2: running the upsert engine twice in succession with an identical
batch leaves the destination table exactly as the first successful run
left it — same rows, so no duplicates and an unchanged row count.  The
only hypotheses are the spec's precondition that every record carries a
non-null unique-key value, and the structural shape of a DataFrame
batch: every record lists the same duplicate-free `df.columns`.
Duplicate key values across records are allowed — the replay rewrites
such a row through the same sequence of merges, ending at the same last
write. -/
theorem c2_upsert_idempotent (k : String) (ok : Row → Bool) (cols : List String)
    (t t2 : Table) (l : List Row)
    (hcols : ∀ r ∈ l, r.map Prod.fst = cols)
    (hnodup : cols.Nodup)
    (hkey : ∀ r ∈ l, ∃ v, getCol r k = some v ∧ v ≠ Value.vNone)
    (h1 : upsert_dataframe_to_postgres k ok t l = ⟨t2, none, none⟩) :
    upsert_dataframe_to_postgres k ok t2 l = ⟨t2, none, none⟩ := by
  have hraw : runBatchNoTx k ok t l = (t2, none) := by
    unfold upsert_dataframe_to_postgres at h1
    rcases hr : runBatchNoTx k ok t l with ⟨t1, e⟩
    rw [hr] at h1
    cases e with
    | none =>
        have h2 : t1 = t2 := congrArg UpsertOutcome.table h1
        rw [← h2]
    | some e2 =>
        have h2 := congrArg UpsertOutcome.error h1
        simp [upsertErrorText] at h2
  have hrun2 := runBatch_replay k ok cols hnodup l t t2 t2 hcols hkey hraw rfl
    (fun i hu ht hle => rfl) (fun i hs hu ht => Or.inr rfl)
  unfold upsert_dataframe_to_postgres
  rw [hrun2]

/-- C2 witness: a batch containing a duplicate key (two records for
id 1, last write "y" wins) and a second key, run from the empty table;
the second identical run returns the first run's table unchanged. -/
theorem c2_upsert_idempotent_witness :
    upsert_dataframe_to_postgres "id" (fun _ => true)
        [[("id", Value.vInt 1), ("a", Value.vStr "y")],
         [("id", Value.vInt 2), ("a", Value.vStr "z")]]
        [[("id", Value.vInt 1), ("a", Value.vStr "x")],
         [("id", Value.vInt 1), ("a", Value.vStr "y")],
         [("id", Value.vInt 2), ("a", Value.vStr "z")]]
      = ⟨[[("id", Value.vInt 1), ("a", Value.vStr "y")],
          [("id", Value.vInt 2), ("a", Value.vStr "z")]], none, none⟩ :=
  c2_upsert_idempotent "id" (fun _ => true) ["id", "a"] []
    [[("id", Value.vInt 1), ("a", Value.vStr "y")],
     [("id", Value.vInt 2), ("a", Value.vStr "z")]]
    [[("id", Value.vInt 1), ("a", Value.vStr "x")],
     [("id", Value.vInt 1), ("a", Value.vStr "y")],
     [("id", Value.vInt 2), ("a", Value.vStr "z")]]
    (by decide) (by decide) (by decide) rfl
